import Mathlib

/-!
# Vote bot: poll lifecycle and tallying (`src/main.go`)

A shallow embedding of the five HTTP handlers of `VoteHandler`
(`CreateVote`, `SubmitVote`, `GetResults`, `EndVote`, `DeleteVote`) over an
explicit model of the two Tarantool spaces they use.

Modelling conventions.

* The database is the pair of spaces `votes` and `vote_results`, each a list of
  typed tuples.  `votes` has the unique primary index on `id`; `vote_results`
  has the unique primary index on `id` and the unique index `vote_user` on
  `(vote_id, user_id)` (`initSpaces`).  The connection is assumed to be up:
  a request fails only for a reason the database itself gives (duplicate key).
* `Select(space, index, offset, limit, iterator, key)` follows the Tarantool
  select request: walk the index from `key` with the iterator, skip `offset`
  tuples, return at most `limit` tuples.
* A handler is modelled from the point where the request text has been split:
  its inputs are the caller (`req.UserID`), the already split arguments, and
  the values of the clock it reads.  Decoded JSON values and the result of
  `fmt.Sscanf` are inputs.
* A handler returns the new database together with a `Reply`, one constructor
  for each `sendMattermostResponse` call site.
* Go `int` is 64 bit: arithmetic results are wrapped with `wrapInt`, `/` is
  truncating division.
-/

namespace VoteBot

/-! ## Data model -/

/-- A tuple of space `votes` (struct `Vote`, `created_at` in Unix seconds). -/
structure Vote where
  ID : String
  CreatorID : String
  Question : String
  Options : List String
  Active : Bool
  CreatedAt : Int
deriving DecidableEq, Repr

/-- A tuple of space `vote_results`: `id, vote_id, user_id, option, voted_at`. -/
structure VoteResult where
  ID : String
  VoteID : String
  UserID : String
  Option : String
  VotedAt : Int
deriving DecidableEq, Repr

/-- The database behind `tarantoolConn`: the contents of the two spaces. -/
structure Store where
  votes : List Vote
  vote_results : List VoteResult
deriving DecidableEq, Repr

/-- One line of the result listing: index, option, count and percentage. -/
structure ResultLine where
  index : Nat
  option : String
  count : Int
  percent : Int
deriving DecidableEq, Repr

/-- The text handed to `sendMattermostResponse`, one constructor per call site. -/
inductive Reply where
  /-- Text `"Invalid format. Use: /create ..."`. -/
  | invalidFormat
  /-- Text `"Failed to create vote"`. -/
  | createFailed
  /-- Text `"Голосование создано!"` with the question, the id and the option list. -/
  | created (question : String) (id : String) (options : List String)
  /-- Text `"Голосование не найдено"`. -/
  | notFound
  /-- Text `"Голосование завершено"`, sent by `SubmitVote` for an inactive vote. -/
  | closed
  /-- Text `"Неверный номер варианта. Допустимые значения: 1-%d"` with `len(options)`. -/
  | invalidOption (n : Nat)
  /-- Text `"Вы уже проголосовали в этом голосовании"`. -/
  | alreadyVoted
  /-- Text `"Failed to submit vote"`. -/
  | submitFailed
  /-- Text `"Ваш голос за вариант ... принят"` with the chosen option. -/
  | accepted (option : String)
  /-- The result listing: question, status, total and one line per option. -/
  | results (question : String) (isActive : Bool) (totalVotes : Int)
      (lines : List ResultLine)
  /-- Text `"Только создатель может завершить голосование"`. -/
  | onlyCreatorEnd
  /-- Text `"Голосование завершено"`, sent by `EndVote` on success. -/
  | ended
  /-- Text `"Только создатель может удалить голосование"`. -/
  | onlyCreatorDelete
  /-- Text `"Голосование удалено"`. -/
  | deleted
  /-- A run-time panic: index out of range. -/
  | outOfRange
deriving DecidableEq, Repr

/-! ## The database operations -/

/-- Iterator types of a select request used by the handlers. -/
inductive Iter where
  | IterEq
  | IterGe
deriving DecidableEq, Repr

/-- Order of two strings in a tree index: lexicographic on the characters. -/
def strLe : List Char → List Char → Bool
  | [], _ => true
  | _ :: _, [] => false
  | a :: as, b :: bs =>
    if a.toNat < b.toNat then true
    else if b.toNat < a.toNat then false
    else strLe as bs

/-- Order of two index keys, part by part. -/
def keyLe : List String → List String → Bool
  | [], _ => true
  | _ :: _, [] => false
  | a :: as, b :: bs =>
    if a = b then keyLe as bs else strLe a.data b.data

/-- Request `conn.Select(space, index, offset, limit, iterator, key)` on a space
given by its tuples and the key of the chosen index: the tuples the iterator
reaches (`IterEq`: key equal; `IterGe`: key greater or equal, in index order),
without the first `offset` ones, at most `limit` of them (none when `limit`
is 0). -/
def select {α : Type} (rows : List α) (index : α → List String)
    (offset limit : Nat) (iterator : Iter) (key : List String) : List α :=
  match iterator with
  | .IterEq => ((rows.filter (fun t => index t = key)).drop offset).take limit
  | .IterGe =>
    (((rows.filter (fun t => keyLe key (index t))).insertionSort
        (fun a b => keyLe (index a) (index b) = true)).drop offset).take limit

/-- Index `primary` of space `votes`. -/
def votesPrimary (v : Vote) : List String := [v.ID]

/-- Index `primary` of space `vote_results`. -/
def resultsPrimary (r : VoteResult) : List String := [r.ID]

/-- Index `vote_user` of space `vote_results`. -/
def resultsVoteUser (r : VoteResult) : List String := [r.VoteID, r.UserID]

/-- Request `conn.Insert("votes", ...)`: refused when the primary key is taken. -/
def insertVote (s : Store) (v : Vote) : Option Store :=
  if s.votes.any (fun w => votesPrimary w = votesPrimary v) then none
  else some { s with votes := s.votes ++ [v] }

/-- Request `conn.Insert("vote_results", ...)`: refused when the key of a unique index
(`primary` or `vote_user`) is taken. -/
def insertResult (s : Store) (r : VoteResult) : Option Store :=
  if s.vote_results.any (fun w => resultsPrimary w = resultsPrimary r) then none
  else if s.vote_results.any (fun w => resultsVoteUser w = resultsVoteUser r) then none
  else some { s with vote_results := s.vote_results ++ [r] }

/-- Request `conn.Update("votes", "primary", [voteID], [["=", 4, active]])`:
field 4 (`active`) of the tuple with that key is set. -/
def updateActive (s : Store) (voteID : String) (active : Bool) : Store :=
  let setActive : Vote → Vote := fun v =>
    if votesPrimary v = [voteID] then { v with Active := active } else v
  { s with votes := s.votes.map setActive }

/-- Request `conn.Delete("votes", "primary", [voteID])`. -/
def deleteVote (s : Store) (voteID : String) : Store :=
  { s with votes := s.votes.filter (fun v => votesPrimary v ≠ [voteID]) }

/-! ## Helpers of the handlers -/

/-- Function `generateID` applied to the clock value `time.Now().UnixNano()`:
`fmt.Sprintf("%x", n)`. -/
def generateID (nanos : Int) : String :=
  (if nanos < 0 then "-" else "") ++ String.mk (Nat.toDigits 16 nanos.natAbs)

/-- The key of a ballot: `fmt.Sprintf("%s_%s", voteID, req.UserID)`. -/
def resultID (voteID userID : String) : String :=
  voteID ++ "_" ++ userID

/-- A Go `int` result: the value modulo `2^64`, in `[-2^63, 2^63)`. -/
def wrapInt (x : Int) : Int :=
  (x + 2 ^ 63) % 2 ^ 64 - 2 ^ 63

/-- The options used when the request gives none: `[]string{"Да", "Нет"}`. -/
def defaultOptions : List String := ["Да", "Нет"]

/-- What `CreateVote` gets from `json.Unmarshal` on the text after the command:
a string, an array (its elements already rendered with `%v`), or neither. -/
inductive Payload where
  | jsonString (question : String)
  | jsonArray (data : List String)
  | invalid
deriving DecidableEq, Repr

/-- The first tuple of a `Select` on `votes` by primary key (`resp.Data[0]`),
if there is one. -/
def findVote (s : Store) (voteID : String) : Option Vote :=
  (select s.votes votesPrimary 0 1 .IterEq [voteID]).head?

/-! ## The handlers -/

/-- Handler `CreateVote`, from the parsing of the question and the options on. -/
def CreateVote (s : Store) (userID : String) (payload : Payload)
    (nanos now : Int) : Store × Reply :=
  let parsed : Option (String × List String) :=
    match payload with
    | .jsonString question => some (question, defaultOptions)
    | .jsonArray [] => none
    | .jsonArray (question :: rest) =>
      some (question, if rest.length + 1 > 1 then rest else defaultOptions)
    | .invalid => none
  match parsed with
  | none => (s, .invalidFormat)
  | some (question, options) =>
    let vote : Vote :=
      { ID := generateID nanos, CreatorID := userID, Question := question,
        Options := options, Active := true, CreatedAt := now }
    match insertVote s vote with
    | none => (s, .createFailed)
    | some s1 => (s1, .created vote.Question vote.ID vote.Options)

/-- Handler `SubmitVote`; `optionNum` is what `fmt.Sscanf(optionNum, "%d", _)`
read (`none` when it returned an error). -/
def SubmitVote (s : Store) (userID voteID : String) (optionNum : Option Int)
    (now : Int) : Store × Reply :=
  match findVote s voteID with
  | none => (s, .notFound)
  | some vote =>
    if !vote.Active then (s, .closed)
    else
      let options := vote.Options
      match optionNum with
      | none => (s, .invalidOption options.length)
      | some optionIndex =>
        if optionIndex < 1 ∨ optionIndex > options.length then
          (s, .invalidOption options.length)
        else
          match options.get? (optionIndex - 1).toNat with
          | none => (s, .outOfRange)
          | some selectedOption =>
            if (select s.vote_results resultsVoteUser 0 1 .IterEq
                [voteID, userID]).length > 0 then
              (s, .alreadyVoted)
            else
              match insertResult s
                  { ID := resultID voteID userID, VoteID := voteID,
                    UserID := userID, Option := selectedOption,
                    VotedAt := now } with
              | none => (s, .submitFailed)
              | some s1 => (s1, .accepted selectedOption)

/-- The map `votesCount`, as an association list read from the front. -/
def mapGet : List (String × Int) → String → Int
  | [], _ => 0
  | (k, v) :: m, key => if k = key then v else mapGet m key

/-- Assignment `votesCount[key] = v`. -/
def mapSet (m : List (String × Int)) (key : String) (v : Int) : List (String × Int) :=
  (key, v) :: m

/-- The first loop of `GetResults`: `votesCount[opt] = 0` for every option. -/
def initCounts (options : List String) : List (String × Int) :=
  options.foldl (fun m opt => mapSet m opt 0) []

/-- The second loop of `GetResults`: `votesCount[option]++; totalVotes++` for
every tuple read. -/
def countVotes (m : List (String × Int)) (data : List VoteResult) :
    List (String × Int) × Int :=
  data.foldl
    (fun acc item =>
      (mapSet acc.1 item.Option (wrapInt (mapGet acc.1 item.Option + 1)),
       wrapInt (acc.2 + 1)))
    (m, 0)

/-- The third loop of `GetResults`: one line per option, in order. -/
def resultLines (options : List String) (votesCount : List (String × Int))
    (totalVotes : Int) : List ResultLine :=
  options.enum.map fun (i, option) =>
    let count := mapGet votesCount option
    let percent := if totalVotes > 0 then (wrapInt (count * 100)).tdiv totalVotes else 0
    { index := i + 1, option := option, count := count, percent := percent }

/-- Lines 319-347 of `GetResults`: the counting and the listing, for the
tuples `data` that the select returned. -/
def tally (question : String) (options : List String) (isActive : Bool)
    (data : List VoteResult) : Reply :=
  let counted := countVotes (initCounts options) data
  .results question isActive counted.2 (resultLines options counted.1 counted.2)

/-- Handler `GetResults`; it does not write to the database.  The ballots are
read as in the source: index `primary`, offset 0, limit 0, iterator `IterGe`,
key `[voteID]`. -/
def GetResults (s : Store) (voteID : String) : Reply :=
  match findVote s voteID with
  | none => .notFound
  | some vote =>
    tally vote.Question vote.Options vote.Active
      (select s.vote_results resultsPrimary 0 0 .IterGe [voteID])

/-- Handler `EndVote`. -/
def EndVote (s : Store) (userID voteID : String) : Store × Reply :=
  match findVote s voteID with
  | none => (s, .notFound)
  | some vote =>
    if vote.CreatorID ≠ userID then (s, .onlyCreatorEnd)
    else (updateActive s voteID false, .ended)

/-- Handler `DeleteVote`.  After the delete on `votes` the handler only calls
`box.space.vote_results.index.primary:pairs`, which reads, and does nothing
with the answer: `vote_results` is left as it is. -/
def DeleteVote (s : Store) (userID voteID : String) : Store × Reply :=
  match findVote s voteID with
  | none => (s, .notFound)
  | some vote =>
    if vote.CreatorID ≠ userID then (s, .onlyCreatorDelete)
    else (deleteVote s voteID, .deleted)

/-! ## The states the handlers produce -/

/-- An id that `generateID` can return. -/
def Generated (id : String) : Prop :=
  ∃ nanos : Int, id = generateID nanos

/-- The ballots stored for a pair `(vote_id, user_id)`. -/
def ballots (s : Store) (voteID userID : String) : List VoteResult :=
  s.vote_results.filter (fun r => r.VoteID = voteID ∧ r.UserID = userID)

/-- The ballots stored for a vote. -/
def ballotsOf (s : Store) (voteID : String) : List VoteResult :=
  s.vote_results.filter (fun r => r.VoteID = voteID)

/-- What holds of the database in every state the handlers produce: the three
unique indexes have no duplicate key, vote ids come from `generateID`, and a
ballot is stored under the key `resultID vote_id user_id` for a vote id that
came from `generateID`. -/
structure Inv (s : Store) : Prop where
  votes_unique : (s.votes.map (fun v => v.ID)).Nodup
  results_unique : (s.vote_results.map (fun r => r.ID)).Nodup
  pair_unique : (s.vote_results.map (fun r => (r.VoteID, r.UserID))).Nodup
  votes_generated : ∀ v ∈ s.votes, Generated v.ID
  results_keyed : ∀ r ∈ s.vote_results,
    r.ID = resultID r.VoteID r.UserID ∧ Generated r.VoteID

/-- The databases reachable from the empty one by requests to the handlers
that write (`GetResults` only reads). -/
inductive Reachable : Store → Prop where
  | init : Reachable { votes := [], vote_results := [] }
  | create (s : Store) (userID : String) (payload : Payload) (nanos now : Int) :
      Reachable s → Reachable (CreateVote s userID payload nanos now).1
  | submit (s : Store) (userID voteID : String) (optionNum : Option Int) (now : Int) :
      Reachable s → Reachable (SubmitVote s userID voteID optionNum now).1
  | endVote (s : Store) (userID voteID : String) :
      Reachable s → Reachable (EndVote s userID voteID).1
  | delete (s : Store) (userID voteID : String) :
      Reachable s → Reachable (DeleteVote s userID voteID).1

/-- The number of tuples of `data` whose option is `option`. -/
def optionCount (data : List VoteResult) (option : String) : Int :=
  ((data.filter (fun r => r.Option = option)).length : Int)

/-! ## Example databases -/

/-- The database before any request. -/
def emptyStore : Store := { votes := [], vote_results := [] }

/-- The vote "Lunch?" that `alice` creates at clock value 26 (id `"1a"`). -/
def lunchVote : Vote :=
  { ID := "1a", CreatorID := "alice", Question := "Lunch?",
    Options := ["Pizza", "Sushi"], Active := true, CreatedAt := 1 }

/-- The database after `alice` has created the vote "Lunch?". -/
def pollStore : Store :=
  (CreateVote emptyStore "alice" (.jsonArray ["Lunch?", "Pizza", "Sushi"]) 26 1).1

/-- The database after `alice` has created "Lunch?" (id `"1a"`), `dave` has
created "Dinner?" (id `"1b"`), `bob` and `carol` have voted 1 and 2 on
"Lunch?" and `erin` has voted 1 on "Dinner?". -/
def lunchStore : Store :=
  let a := (CreateVote pollStore "dave" (.jsonArray ["Dinner?", "Pizza", "Pasta"]) 27 2).1
  let b := (SubmitVote a "bob" "1a" (some 1) 3).1
  let c := (SubmitVote b "carol" "1a" (some 2) 4).1
  (SubmitVote c "erin" "1b" (some 1) 5).1

/-! ## Basic facts about the database operations -/

theorem select_eq_one {α : Type} (rows : List α) (index : α → List String)
    (key : List String) :
    (select rows index 0 1 .IterEq key).head? = rows.find? (fun t => index t = key) := by
  simp only [select, List.drop_zero]
  induction rows with
  | nil => rfl
  | cons a l ih =>
    by_cases h : index a = key
    · simp [List.filter_cons, List.find?_cons, h]
    · simp [List.filter_cons, List.find?_cons, h, ih]

theorem findVote_eq_find (s : Store) (voteID : String) :
    findVote s voteID = s.votes.find? (fun v => v.ID = voteID) := by
  unfold findVote
  rw [select_eq_one]
  simp [votesPrimary]

theorem findVote_some {s : Store} {voteID : String} {v : Vote}
    (h : findVote s voteID = some v) : v ∈ s.votes ∧ v.ID = voteID := by
  rw [findVote_eq_find] at h
  exact ⟨List.mem_of_find?_eq_some h, by simpa using List.find?_some h⟩

theorem findVote_updateActive (s : Store) (voteID : String) (active : Bool) :
    findVote (updateActive s voteID active) voteID =
      (findVote s voteID).map (fun v => { v with Active := active }) := by
  simp only [findVote_eq_find, updateActive, votesPrimary]
  induction s.votes with
  | nil => rfl
  | cons a l ih =>
    by_cases h : a.ID = voteID
    · simp [List.find?_cons, h]
    · have h1 : ([a.ID] = [voteID]) = False := by simp [h]
      simp only [List.map_cons, h1, if_false, List.find?_cons, h, decide_False]
      exact ih

theorem updateActive_idem (s : Store) (voteID : String) (active : Bool) :
    updateActive (updateActive s voteID active) voteID active =
      updateActive s voteID active := by
  simp only [updateActive, votesPrimary, List.map_map]
  congr 1
  apply List.map_congr_left
  intro v _
  by_cases h : v.ID = voteID <;> simp [h]

/-! ## Ballot keys -/

theorem digitChar_ne_underscore (d : Nat) : Nat.digitChar d ≠ '_' := by
  by_cases h : d < 16
  · interval_cases d <;> decide
  · obtain ⟨n, rfl⟩ : ∃ n, d = n + 16 := ⟨d - 16, by omega⟩
    have : Nat.digitChar (n + 16) = '*' := by
      unfold Nat.digitChar
      simp
    rw [this]
    decide

theorem toDigitsCore_no_underscore (base : Nat) :
    ∀ (fuel n : Nat) (ds : List Char), '_' ∉ ds →
      '_' ∉ Nat.toDigitsCore base fuel n ds := by
  intro fuel
  induction fuel with
  | zero => intro n ds h; simpa [Nat.toDigitsCore] using h
  | succ fuel ih =>
    intro n ds h
    have hd : '_' ∉ Nat.digitChar (n % base) :: ds := by
      intro hmem
      rcases List.mem_cons.mp hmem with h1 | h1
      · exact digitChar_ne_underscore _ h1.symm
      · exact h h1
    unfold Nat.toDigitsCore
    dsimp only
    split
    · exact hd
    · exact ih _ _ hd

theorem generateID_no_underscore (nanos : Int) : '_' ∉ (generateID nanos).data := by
  have hd : '_' ∉ Nat.toDigits 16 nanos.natAbs :=
    toDigitsCore_no_underscore 16 _ _ [] (by simp)
  unfold generateID
  rw [String.data_append]
  intro hmem
  rcases List.mem_append.mp hmem with h | h
  · split at h
    · have : ("-" : String).data = ['-'] := rfl
      rw [this] at h
      simp at h
    · have : ("" : String).data = [] := rfl
      rw [this] at h
      simp at h
  · exact hd h

theorem Generated.no_underscore {id : String} (h : Generated id) : '_' ∉ id.data := by
  obtain ⟨nanos, rfl⟩ := h
  exact generateID_no_underscore nanos

theorem append_sep_inj {α : Type} (x : α) :
    ∀ (l1 l2 r1 r2 : List α), x ∉ l1 → x ∉ l2 → l1 ++ x :: r1 = l2 ++ x :: r2 →
      l1 = l2 ∧ r1 = r2 := by
  intro l1
  induction l1 with
  | nil =>
    intro l2 r1 r2 _ h2 h
    cases l2 with
    | nil => simpa using h
    | cons b l2 =>
      simp only [List.nil_append, List.cons_append, List.cons.injEq] at h
      exact absurd (by simp [h.1]) h2
  | cons a l1 ih =>
    intro l2 r1 r2 h1 h2 h
    cases l2 with
    | nil =>
      simp only [List.nil_append, List.cons_append, List.cons.injEq] at h
      exact absurd (by simp [h.1]) h1
    | cons b l2 =>
      simp only [List.cons_append, List.cons.injEq] at h
      have := ih l2 r1 r2 (fun hm => h1 (List.mem_cons_of_mem _ hm))
        (fun hm => h2 (List.mem_cons_of_mem _ hm)) h.2
      exact ⟨by rw [h.1, this.1], this.2⟩

theorem resultID_data (voteID userID : String) :
    (resultID voteID userID).data = voteID.data ++ '_' :: userID.data := by
  unfold resultID
  rw [String.data_append, String.data_append]
  have : ("_" : String).data = ['_'] := rfl
  rw [this]
  simp

/-- The key `resultID` tells two ballots apart when the vote ids hold no `_`. -/
theorem resultID_inj {a b c d : String} (ha : '_' ∉ a.data) (hc : '_' ∉ c.data)
    (h : resultID a b = resultID c d) : a = c ∧ b = d := by
  have hdata := congrArg String.data h
  rw [resultID_data, resultID_data] at hdata
  obtain ⟨h1, h2⟩ := append_sep_inj '_' _ _ _ _ ha hc hdata
  exact ⟨String.ext h1, String.ext h2⟩

/-! ## The invariant of the database -/

theorem select_one_pos {α : Type} (rows : List α) (index : α → List String)
    (key : List String) :
    (select rows index 0 1 .IterEq key).length > 0 ↔ ∃ t ∈ rows, index t = key := by
  have h := select_eq_one rows index key
  have hpos : (select rows index 0 1 .IterEq key).length > 0 ↔
      ((select rows index 0 1 .IterEq key).head?).isSome = true := by
    cases select rows index 0 1 .IterEq key <;> simp
  rw [hpos, h, List.find?_isSome]
  simp

theorem insertVote_some {s s1 : Store} {v : Vote} (h : insertVote s v = some s1) :
    s1 = { s with votes := s.votes ++ [v] } ∧ ∀ w ∈ s.votes, w.ID ≠ v.ID := by
  unfold insertVote at h
  split at h
  · cases h
  · rename_i hany
    refine ⟨(Option.some.inj h).symm, ?_⟩
    intro w hw heq
    apply hany
    simp only [List.any_eq_true, decide_eq_true_eq, votesPrimary]
    exact ⟨w, hw, by rw [heq]⟩

theorem insertResult_some {s s1 : Store} {r : VoteResult}
    (h : insertResult s r = some s1) :
    s1 = { s with vote_results := s.vote_results ++ [r] } ∧
      (∀ w ∈ s.vote_results, w.ID ≠ r.ID) ∧
      (∀ w ∈ s.vote_results, (w.VoteID, w.UserID) ≠ (r.VoteID, r.UserID)) := by
  unfold insertResult at h
  split at h
  · cases h
  · rename_i hp
    split at h
    · cases h
    · rename_i hu
      refine ⟨(Option.some.inj h).symm, ?_, ?_⟩
      · intro w hw heq
        apply hp
        simp only [List.any_eq_true, decide_eq_true_eq, resultsPrimary]
        exact ⟨w, hw, by rw [heq]⟩
      · intro w hw heq
        apply hu
        simp only [List.any_eq_true, decide_eq_true_eq, resultsVoteUser]
        simp only [Prod.mk.injEq] at heq
        exact ⟨w, hw, by rw [heq.1, heq.2]⟩

theorem nodup_map_append_singleton {α β : Type} (f : α → β) (l : List α) (a : α)
    (hl : (l.map f).Nodup) (ha : ∀ w ∈ l, f w ≠ f a) : ((l ++ [a]).map f).Nodup := by
  rw [List.map_append, List.nodup_append]
  refine ⟨hl, by simp, ?_⟩
  intro x hx hx2
  simp only [List.map_cons, List.map_nil, List.mem_singleton] at hx2
  obtain ⟨w, hw, rfl⟩ := List.mem_map.mp hx
  exact ha w hw hx2

theorem Inv.init : Inv { votes := [], vote_results := [] } :=
  ⟨by simp, by simp, by simp, by simp, by simp⟩

/-- Handler `CreateVote` either leaves the database as it is or inserts one vote whose
id is `generateID nanos`. -/
theorem CreateVote_store (s : Store) (userID : String) (payload : Payload)
    (nanos now : Int) :
    (CreateVote s userID payload nanos now).1 = s ∨
      ∃ v : Vote, v.ID = generateID nanos ∧ v.CreatorID = userID ∧ v.Active = true ∧
        insertVote s v = some (CreateVote s userID payload nanos now).1 := by
  unfold CreateVote
  dsimp only
  split
  · exact Or.inl rfl
  · rename_i question options _
    split
    · exact Or.inl rfl
    · rename_i s1 hins
      exact Or.inr ⟨_, rfl, rfl, rfl, hins⟩

/-- Handler `SubmitVote` either leaves the database as it is or inserts one ballot for
an existing vote, under the key `resultID voteID userID`. -/
theorem SubmitVote_store (s : Store) (userID voteID : String)
    (optionNum : Option Int) (now : Int) :
    (SubmitVote s userID voteID optionNum now).1 = s ∨
      ∃ (v : Vote) (r : VoteResult), findVote s voteID = some v ∧
        r.ID = resultID voteID userID ∧ r.VoteID = voteID ∧ r.UserID = userID ∧
        insertResult s r = some (SubmitVote s userID voteID optionNum now).1 := by
  unfold SubmitVote
  split
  · exact Or.inl rfl
  · rename_i vote hfind
    split
    · exact Or.inl rfl
    · dsimp only
      split
      · exact Or.inl rfl
      · split
        · exact Or.inl rfl
        · split
          · exact Or.inl rfl
          · split
            · exact Or.inl rfl
            · split
              · exact Or.inl rfl
              · rename_i s1 hins
                exact Or.inr ⟨vote, _, hfind, rfl, rfl, rfl, hins⟩

theorem Inv.createVote {s : Store} (h : Inv s) (userID : String) (payload : Payload)
    (nanos now : Int) : Inv (CreateVote s userID payload nanos now).1 := by
  rcases CreateVote_store s userID payload nanos now with heq | ⟨v, hid, _, _, hins⟩
  · rw [heq]; exact h
  · obtain ⟨hs1, hfresh⟩ := insertVote_some hins
    rw [hs1]
    refine ⟨?_, h.results_unique, h.pair_unique, ?_, h.results_keyed⟩
    · exact nodup_map_append_singleton _ _ _ h.votes_unique hfresh
    · intro w hw
      rcases List.mem_append.mp hw with hw | hw
      · exact h.votes_generated w hw
      · rw [List.mem_singleton.mp hw]
        exact ⟨nanos, hid⟩

theorem Inv.submitVote {s : Store} (h : Inv s) (userID voteID : String)
    (optionNum : Option Int) (now : Int) :
    Inv (SubmitVote s userID voteID optionNum now).1 := by
  rcases SubmitVote_store s userID voteID optionNum now with
    heq | ⟨v, r, hfind, hid, hvote, huser, hins⟩
  · rw [heq]; exact h
  · obtain ⟨hs1, hfresh, hpair⟩ := insertResult_some hins
    obtain ⟨hv, hvid⟩ := findVote_some hfind
    rw [hs1]
    refine ⟨h.votes_unique, ?_, ?_, h.votes_generated, ?_⟩
    · exact nodup_map_append_singleton _ _ _ h.results_unique hfresh
    · exact nodup_map_append_singleton _ _ _ h.pair_unique hpair
    · intro w hw
      rcases List.mem_append.mp hw with hw | hw
      · exact h.results_keyed w hw
      · rw [List.mem_singleton.mp hw, hid, hvote, huser]
        exact ⟨rfl, hvid ▸ h.votes_generated v hv⟩

theorem Inv.updateActive {s : Store} (h : Inv s) (voteID : String) (active : Bool) :
    Inv (updateActive s voteID active) := by
  have hids : ∀ l : List Vote,
      (l.map (fun v => if votesPrimary v = [voteID] then
          ({ v with Active := active } : Vote) else v)).map (fun v => v.ID) =
        l.map (fun v => v.ID) := by
    intro l
    rw [List.map_map]
    apply List.map_congr_left
    intro v _
    simp only [Function.comp]
    split <;> rfl
  refine ⟨?_, h.results_unique, h.pair_unique, ?_, h.results_keyed⟩
  · simp only [VoteBot.updateActive]
    rw [hids]
    exact h.votes_unique
  · intro w hw
    simp only [VoteBot.updateActive, List.mem_map] at hw
    obtain ⟨v, hv, rfl⟩ := hw
    have := h.votes_generated v hv
    split <;> exact this

theorem Inv.deleteVote {s : Store} (h : Inv s) (voteID : String) :
    Inv (deleteVote s voteID) := by
  refine ⟨?_, h.results_unique, h.pair_unique, ?_, h.results_keyed⟩
  · simp only [VoteBot.deleteVote]
    exact (List.filter_sublist _).map _ |>.nodup h.votes_unique
  · intro w hw
    simp only [VoteBot.deleteVote] at hw
    exact h.votes_generated w (List.mem_of_mem_filter hw)

theorem Inv.endVote {s : Store} (h : Inv s) (userID voteID : String) :
    Inv (EndVote s userID voteID).1 := by
  unfold EndVote
  split
  · exact h
  · split
    · exact h
    · exact h.updateActive voteID false

theorem Inv.deleteHandler {s : Store} (h : Inv s) (userID voteID : String) :
    Inv (DeleteVote s userID voteID).1 := by
  unfold DeleteVote
  split
  · exact h
  · split
    · exact h
    · exact h.deleteVote voteID

/-- Every database the handlers can produce from the empty one satisfies the
invariant. -/
theorem Reachable.inv {s : Store} (h : Reachable s) : Inv s := by
  induction h with
  | init => exact Inv.init
  | create s userID payload nanos now _ ih => exact ih.createVote userID payload nanos now
  | submit s userID voteID optionNum now _ ih => exact ih.submitVote userID voteID optionNum now
  | endVote s userID voteID _ ih => exact ih.endVote userID voteID
  | delete s userID voteID _ ih => exact ih.deleteHandler userID voteID

/-! ## Ending and deleting a vote -/

/-- Claim C6: for every database, every existing vote and every caller other
than its creator, `EndVote` answers "only the creator can end the vote" and
`DeleteVote` answers "only the creator can delete the vote", and both leave
the two spaces exactly as they were. -/
theorem nonCreator_forbidden (s : Store) (userID voteID : String) (v : Vote)
    (hfind : findVote s voteID = some v) (hne : userID ≠ v.CreatorID) :
    EndVote s userID voteID = (s, Reply.onlyCreatorEnd) ∧
      DeleteVote s userID voteID = (s, Reply.onlyCreatorDelete) := by
  have h : v.CreatorID ≠ userID := fun e => hne e.symm
  constructor
  · simp [EndVote, hfind, h]
  · simp [DeleteVote, hfind, h]

/-- Claim C7: for every database and every existing vote, active or already
ended, two `EndVote` calls in a row by the creator both answer "vote ended",
the vote is stored with `Active = false` (and otherwise unchanged) after each
call, and the database after the second call is the one after the first. -/
theorem endVote_twice (s : Store) (userID voteID : String) (v : Vote)
    (hfind : findVote s voteID = some v) (hcreator : v.CreatorID = userID) :
    (EndVote s userID voteID).2 = Reply.ended ∧
      (EndVote (EndVote s userID voteID).1 userID voteID).2 = Reply.ended ∧
      findVote (EndVote s userID voteID).1 voteID = some { v with Active := false } ∧
      findVote (EndVote (EndVote s userID voteID).1 userID voteID).1 voteID =
        some { v with Active := false } ∧
      (EndVote (EndVote s userID voteID).1 userID voteID).1 =
        (EndVote s userID voteID).1 := by
  have h1 : EndVote s userID voteID = (updateActive s voteID false, Reply.ended) := by
    simp [EndVote, hfind, hcreator]
  have hf1 : findVote (updateActive s voteID false) voteID =
      some { v with Active := false } := by
    rw [findVote_updateActive, hfind]; rfl
  have h2 : EndVote (updateActive s voteID false) userID voteID =
      (updateActive s voteID false, Reply.ended) := by
    simp [EndVote, hf1, hcreator, updateActive_idem]
  rw [h1]
  simp only [h2, hf1, and_self]

/-- Claim C10: for every database and every existing vote, once `EndVote` by
the creator has answered "vote ended", every `SubmitVote` on that vote (any
voter, any option number, any time) answers "vote is over" and leaves the
database, hence the stored ballots, unchanged. -/
theorem submit_after_end_closed (s : Store) (userID voteID : String) (v : Vote)
    (hfind : findVote s voteID = some v) (hcreator : v.CreatorID = userID)
    (voter : String) (optionNum : Option Int) (now : Int) :
    (EndVote s userID voteID).2 = Reply.ended ∧
      SubmitVote (EndVote s userID voteID).1 voter voteID optionNum now =
        ((EndVote s userID voteID).1, Reply.closed) := by
  have h1 : EndVote s userID voteID = (updateActive s voteID false, Reply.ended) := by
    simp [EndVote, hfind, hcreator]
  have hf1 : findVote (updateActive s voteID false) voteID =
      some { v with Active := false } := by
    rw [findVote_updateActive, hfind]; rfl
  rw [h1]
  simp [SubmitVote, hf1]

/-! ## Option numbers -/

/-- Handler `SubmitVote` on an active vote with an option number in range, unfolded up
to the check for an earlier ballot. -/
theorem SubmitVote_inRange (s : Store) (userID voteID : String) (v : Vote)
    (optionIndex : Int) (now : Int)
    (hfind : findVote s voteID = some v) (hactive : v.Active = true)
    (hlt : (optionIndex - 1).toNat < v.Options.length)
    (hlo : 1 ≤ optionIndex) (hhi : optionIndex ≤ v.Options.length) :
    SubmitVote s userID voteID (some optionIndex) now =
      if (select s.vote_results resultsVoteUser 0 1 .IterEq [voteID, userID]).length > 0 then
        (s, Reply.alreadyVoted)
      else
        match insertResult s
            { ID := resultID voteID userID, VoteID := voteID, UserID := userID,
              Option := v.Options.get ⟨(optionIndex - 1).toNat, hlt⟩,
              VotedAt := now } with
        | none => (s, Reply.submitFailed)
        | some s1 => (s1, Reply.accepted (v.Options.get ⟨(optionIndex - 1).toNat, hlt⟩)) := by
  have hin : ¬ (optionIndex < 1 ∨ optionIndex > v.Options.length) := by omega
  have hget : v.Options.get? (optionIndex - 1).toNat =
      some (v.Options.get ⟨(optionIndex - 1).toNat, hlt⟩) := List.get?_eq_get hlt
  have hna : (!v.Active) = false := by simp [hactive]
  unfold SubmitVote
  simp only [hfind, hna, hin, if_false, hget, Bool.false_eq_true]

/-- Claim C9: for every existing active vote with `n` options, `SubmitVote`
with an option number below 1 or above `n` answers "wrong option number,
allowed values 1-n" and leaves the database unchanged; and with an option
number in `[1, n]` the access `options[optionIndex-1]` is in bounds and the
handler does not stop with an index-out-of-range panic. -/
theorem submit_option_range (s : Store) (userID voteID : String) (v : Vote)
    (optionIndex : Int) (now : Int)
    (hfind : findVote s voteID = some v) (hactive : v.Active = true) :
    ((optionIndex < 1 ∨ optionIndex > v.Options.length) →
        SubmitVote s userID voteID (some optionIndex) now =
          (s, Reply.invalidOption v.Options.length)) ∧
      ((1 ≤ optionIndex ∧ optionIndex ≤ v.Options.length) →
        (optionIndex - 1).toNat < v.Options.length ∧
        (SubmitVote s userID voteID (some optionIndex) now).2 ≠ Reply.outOfRange) := by
  constructor
  · intro hout
    simp [SubmitVote, hfind, hactive, hout]
  · rintro ⟨hlo, hhi⟩
    have hlt : (optionIndex - 1).toNat < v.Options.length := by omega
    refine ⟨hlt, ?_⟩
    rw [SubmitVote_inRange s userID voteID v optionIndex now hfind hactive hlt hlo hhi]
    split
    · simp
    · split <;> simp

/-! ## One ballot per voter -/

theorem filter_key_length_one {α β : Type} [DecidableEq β] (f : α → β) :
    ∀ (l : List α) (a : α), (l.map f).Nodup → a ∈ l →
      (l.filter (fun x => f x = f a)).length = 1 := by
  intro l
  induction l with
  | nil => intro a _ h; cases h
  | cons b l ih =>
    intro a hnd ha
    rw [List.map_cons, List.nodup_cons] at hnd
    obtain ⟨hb, hl⟩ := hnd
    by_cases hab : f b = f a
    · have hnone : l.filter (fun x => f x = f a) = [] := by
        rw [List.filter_eq_nil_iff]
        intro x hx hfx
        simp only [decide_eq_true_eq] at hfx
        exact hb (List.mem_map.mpr ⟨x, hx, by rw [hfx, hab]⟩)
      simp [List.filter_cons, hab, hnone]
    · have hal : a ∈ l := by
        rcases List.mem_cons.mp ha with h | h
        · exact absurd (by rw [h]) hab
        · exact h
      simp [List.filter_cons, hab, ih a hl hal]

theorem ballots_length_one {s : Store} (h : Inv s) {r : VoteResult}
    (hr : r ∈ s.vote_results) : (ballots s r.VoteID r.UserID).length = 1 := by
  have := filter_key_length_one (fun r : VoteResult => (r.VoteID, r.UserID))
    s.vote_results r h.pair_unique hr
  unfold ballots
  rw [← this]
  congr 1
  apply List.filter_congr
  intro x _
  simp

/-- A voter whose ballot is stored gets "already voted" for every option
number in range, and nothing is written. -/
theorem SubmitVote_voted (s : Store) (userID voteID : String) (v : Vote)
    (optionIndex : Int) (now : Int)
    (hfind : findVote s voteID = some v) (hactive : v.Active = true)
    (hlo : 1 ≤ optionIndex) (hhi : optionIndex ≤ v.Options.length)
    (hvoted : ∃ r ∈ s.vote_results, r.VoteID = voteID ∧ r.UserID = userID) :
    SubmitVote s userID voteID (some optionIndex) now = (s, Reply.alreadyVoted) := by
  have hlt : (optionIndex - 1).toNat < v.Options.length := by omega
  rw [SubmitVote_inRange s userID voteID v optionIndex now hfind hactive hlt hlo hhi]
  have hpos : (select s.vote_results resultsVoteUser 0 1 .IterEq [voteID, userID]).length > 0 := by
    rw [select_one_pos]
    obtain ⟨r, hr, h1, h2⟩ := hvoted
    exact ⟨r, hr, by simp [resultsVoteUser, h1, h2]⟩
  rw [if_pos hpos]

/-- A voter without a stored ballot, in a database that satisfies the
invariant, gets the ballot stored. -/
theorem SubmitVote_fresh (s : Store) (userID voteID : String) (v : Vote)
    (optionIndex : Int) (now : Int) (hinv : Inv s)
    (hfind : findVote s voteID = some v) (hactive : v.Active = true)
    (hlo : 1 ≤ optionIndex) (hhi : optionIndex ≤ v.Options.length)
    (hfresh : ¬ ∃ r ∈ s.vote_results, r.VoteID = voteID ∧ r.UserID = userID) :
    ∃ r : VoteResult, r.VoteID = voteID ∧ r.UserID = userID ∧
      SubmitVote s userID voteID (some optionIndex) now =
        ({ s with vote_results := s.vote_results ++ [r] }, Reply.accepted r.Option) := by
  have hlt : (optionIndex - 1).toNat < v.Options.length := by omega
  rw [SubmitVote_inRange s userID voteID v optionIndex now hfind hactive hlt hlo hhi]
  have hpos : ¬ (select s.vote_results resultsVoteUser 0 1 .IterEq
      [voteID, userID]).length > 0 := by
    rw [select_one_pos]
    rintro ⟨r, hr, hkey⟩
    simp only [resultsVoteUser, List.cons.injEq, and_true] at hkey
    exact hfresh ⟨r, hr, hkey.1, hkey.2⟩
  rw [if_neg hpos]
  obtain ⟨hv, hvid⟩ := findVote_some hfind
  have hgen : Generated voteID := hvid ▸ hinv.votes_generated v hv
  have hprimary : ¬ (s.vote_results.any (fun w => resultsPrimary w = resultsPrimary
      { ID := resultID voteID userID, VoteID := voteID, UserID := userID,
        Option := v.Options.get ⟨(optionIndex - 1).toNat, hlt⟩, VotedAt := now }) = true) := by
    simp only [List.any_eq_true, decide_eq_true_eq, resultsPrimary, List.cons.injEq, and_true]
    rintro ⟨w, hw, hid⟩
    obtain ⟨hkeyed, hwgen⟩ := hinv.results_keyed w hw
    rw [hkeyed] at hid
    obtain ⟨h1, h2⟩ := resultID_inj hwgen.no_underscore hgen.no_underscore hid
    exact hfresh ⟨w, hw, h1, h2⟩
  have hpair : ¬ (s.vote_results.any (fun w => resultsVoteUser w = resultsVoteUser
      { ID := resultID voteID userID, VoteID := voteID, UserID := userID,
        Option := v.Options.get ⟨(optionIndex - 1).toNat, hlt⟩, VotedAt := now }) = true) := by
    simp only [List.any_eq_true, decide_eq_true_eq, resultsVoteUser, List.cons.injEq, and_true]
    rintro ⟨w, hw, h1, h2⟩
    exact hfresh ⟨w, hw, h1, h2⟩
  refine ⟨VoteResult.mk (resultID voteID userID) voteID userID
    (v.Options.get ⟨(optionIndex - 1).toNat, hlt⟩) now, rfl, rfl, ?_⟩
  simp only [insertResult, if_neg hprimary, if_neg hpair]

/-- Claim C1: for every database that satisfies the invariant of the handlers,
every existing active vote, every voter and every two option numbers in range,
two `SubmitVote` calls in a row for the same vote and voter leave exactly one
ballot stored for the pair; the second call answers "already voted" and writes
nothing, and the first call answers "already voted" or "accepted". -/
theorem submit_twice (s : Store) (userID voteID : String) (v : Vote)
    (i j : Int) (t1 t2 : Int) (hinv : Inv s)
    (hfind : findVote s voteID = some v) (hactive : v.Active = true)
    (hi : 1 ≤ i ∧ i ≤ v.Options.length) (hj : 1 ≤ j ∧ j ≤ v.Options.length) :
    (SubmitVote (SubmitVote s userID voteID (some i) t1).1 userID voteID (some j) t2).2 =
        Reply.alreadyVoted ∧
      (SubmitVote (SubmitVote s userID voteID (some i) t1).1 userID voteID (some j) t2).1 =
        (SubmitVote s userID voteID (some i) t1).1 ∧
      (ballots (SubmitVote (SubmitVote s userID voteID (some i) t1).1 userID voteID
        (some j) t2).1 voteID userID).length = 1 ∧
      ((SubmitVote s userID voteID (some i) t1).2 = Reply.alreadyVoted ∨
        ∃ o, (SubmitVote s userID voteID (some i) t1).2 = Reply.accepted o) := by
  by_cases hvoted : ∃ r ∈ s.vote_results, r.VoteID = voteID ∧ r.UserID = userID
  · have h1 := SubmitVote_voted s userID voteID v i t1 hfind hactive hi.1 hi.2 hvoted
    have h2 := SubmitVote_voted s userID voteID v j t2 hfind hactive hj.1 hj.2 hvoted
    rw [h1]
    simp only [h2, true_and, true_or, and_true]
    obtain ⟨r, hr, hv, hu⟩ := hvoted
    rw [← hv, ← hu]
    exact ballots_length_one hinv hr
  · obtain ⟨r, hv, hu, h1⟩ :=
      SubmitVote_fresh s userID voteID v i t1 hinv hfind hactive hi.1 hi.2 hvoted
    have hfind1 : findVote { s with vote_results := s.vote_results ++ [r] } voteID = some v :=
      hfind
    have hvoted1 : ∃ w ∈ ({ s with vote_results := s.vote_results ++ [r] } : Store).vote_results,
        w.VoteID = voteID ∧ w.UserID = userID := ⟨r, by simp, hv, hu⟩
    have h2 := SubmitVote_voted _ userID voteID v j t2 hfind1 hactive hj.1 hj.2 hvoted1
    rw [h1]
    simp only [h2, true_and]
    refine ⟨?_, Or.inr ⟨_, rfl⟩⟩
    have hnone : s.vote_results.filter
        (fun r => r.VoteID = voteID ∧ r.UserID = userID) = [] := by
      rw [List.filter_eq_nil_iff]
      intro x hx hp
      simp only [decide_eq_true_eq] at hp
      exact hvoted ⟨x, hx, hp⟩
    simp only [ballots, List.filter_append, hnone, List.nil_append]
    simp [List.filter_cons, hv, hu]

/-! ## The tally -/

theorem wrapInt_eq {x : Int} (h1 : -2 ^ 63 ≤ x) (h2 : x < 2 ^ 63) : wrapInt x = x := by
  unfold wrapInt
  omega

theorem mapGet_foldl_zero (options : List String) :
    ∀ m : List (String × Int), (∀ k, mapGet m k = 0) →
      ∀ k, mapGet (options.foldl (fun m opt => mapSet m opt 0) m) k = 0 := by
  induction options with
  | nil => intro m hm k; exact hm k
  | cons o rest ih =>
    intro m hm k
    rw [List.foldl_cons]
    apply ih
    intro k2
    simp only [mapSet, mapGet]
    split
    · rfl
    · exact hm k2

theorem mapGet_initCounts (options : List String) (k : String) :
    mapGet (initCounts options) k = 0 :=
  mapGet_foldl_zero options [] (fun _ => rfl) k

theorem optionCount_nonneg (data : List VoteResult) (k : String) :
    0 ≤ optionCount data k := by
  unfold optionCount
  exact Int.natCast_nonneg _

theorem optionCount_le (data : List VoteResult) (k : String) :
    optionCount data k ≤ data.length := by
  unfold optionCount
  exact_mod_cast List.length_filter_le _ _

theorem optionCount_cons (item : VoteResult) (rest : List VoteResult) (k : String) :
    optionCount (item :: rest) k =
      (if item.Option = k then 1 else 0) + optionCount rest k := by
  unfold optionCount
  by_cases h : item.Option = k
  · simp [List.filter_cons, h]; ring
  · simp [List.filter_cons, h]

/-- The counting loop, as long as no counter leaves the range of `int`: the
total grows by the number of tuples, each entry of the map by the number of
tuples with that option. -/
theorem countVotes_foldl (data : List VoteResult) :
    ∀ (m : List (String × Int)) (t : Int),
      0 ≤ t → t + data.length < 2 ^ 63 →
      (∀ k, 0 ≤ mapGet m k ∧ mapGet m k + data.length < 2 ^ 63) →
      (data.foldl
        (fun acc item =>
          (mapSet acc.1 item.Option (wrapInt (mapGet acc.1 item.Option + 1)),
           wrapInt (acc.2 + 1)))
        (m, t)).2 = t + data.length ∧
      ∀ k, mapGet (data.foldl
        (fun acc item =>
          (mapSet acc.1 item.Option (wrapInt (mapGet acc.1 item.Option + 1)),
           wrapInt (acc.2 + 1)))
        (m, t)).1 k = mapGet m k + optionCount data k := by
  induction data with
  | nil =>
    intro m t _ _ _
    simp [optionCount]
  | cons item rest ih =>
    intro m t ht htb hm
    rw [List.foldl_cons]
    simp only [List.length_cons, Nat.cast_add, Nat.cast_one] at htb hm
    have hlen : (0 : Int) ≤ rest.length := Int.natCast_nonneg _
    have hw1 : wrapInt (t + 1) = t + 1 := wrapInt_eq (by omega) (by omega)
    have hw2 : wrapInt (mapGet m item.Option + 1) = mapGet m item.Option + 1 :=
      wrapInt_eq (by have := hm item.Option; omega) (by have := hm item.Option; omega)
    have hget : ∀ k, mapGet (mapSet m item.Option (mapGet m item.Option + 1)) k =
        mapGet m k + (if item.Option = k then 1 else 0) := by
      intro k
      simp only [mapSet, mapGet]
      split
      · rename_i h; rw [h]
      · simp
    rw [hw1, hw2]
    obtain ⟨h1, h2⟩ := ih (mapSet m item.Option (mapGet m item.Option + 1)) (t + 1)
      (by omega) (by omega)
      (by
        intro k
        rw [hget]
        have := hm k
        split <;> omega)
    refine ⟨?_, ?_⟩
    · rw [h1]; simp only [List.length_cons, Nat.cast_add, Nat.cast_one]; ring
    · intro k
      rw [h2, hget, optionCount_cons]
      ring

/-- What `GetResults` lists for the tuples `data` it has read, as long as
`100 * len(data)` is in the range of `int`: the total is the number of tuples,
the count of an option is the number of tuples with that option, and the
percentage is the integer quotient of `count * 100` by the total, or 0 when
no tuple was read. -/
theorem tally_eq (question : String) (options : List String) (isActive : Bool)
    (data : List VoteResult) (hsize : (data.length : Int) * 100 < 2 ^ 63) :
    tally question options isActive data =
      Reply.results question isActive data.length
        (options.enum.map fun p =>
          { index := p.1 + 1, option := p.2, count := optionCount data p.2,
            percent := if (data.length : Int) > 0 then
              optionCount data p.2 * 100 / (data.length : Int) else 0 }) := by
  have hlen : (0 : Int) ≤ data.length := Int.natCast_nonneg _
  obtain ⟨h1, h2⟩ := countVotes_foldl data (initCounts options) 0 (le_refl 0) (by omega)
    (by intro k; rw [mapGet_initCounts]; omega)
  unfold tally
  simp only [countVotes]
  rw [h1]
  simp only [zero_add, resultLines, Reply.results.injEq, true_and]
  apply List.map_congr_left
  intro p _
  obtain ⟨i, o⟩ := p
  have hc : mapGet (data.foldl
        (fun acc item =>
          (mapSet acc.1 item.Option (wrapInt (mapGet acc.1 item.Option + 1)),
           wrapInt (acc.2 + 1)))
        (initCounts options, 0)).1 o = optionCount data o := by
    rw [h2, mapGet_initCounts, zero_add]
  simp only [hc]
  have h0 := optionCount_nonneg data o
  have hle := optionCount_le data o
  rw [wrapInt_eq (by omega) (by omega), Int.tdiv_eq_ediv (by omega) hlen]

theorem select_limit_zero {α : Type} (rows : List α) (index : α → List String)
    (offset : Nat) (iterator : Iter) (key : List String) :
    select rows index offset 0 iterator key = [] := by
  unfold select
  cases iterator <;> simp

/-- What `GetResults` answers for an existing vote: its select on
`vote_results` asks for at most 0 tuples, so the total and every count are 0. -/
theorem GetResults_eq (s : Store) (voteID : String) (v : Vote)
    (hfind : findVote s voteID = some v) :
    GetResults s voteID =
      Reply.results v.Question v.Active 0
        (v.Options.enum.map fun p =>
          { index := p.1 + 1, option := p.2, count := 0, percent := 0 }) := by
  unfold GetResults
  simp only [hfind]
  rw [select_limit_zero, tally_eq _ _ _ [] (by simp)]
  simp [optionCount]

theorem indicator_sum_eq_one (item : String) :
    ∀ options : List String, options.Nodup → item ∈ options →
      (options.map (fun o => if item = o then (1 : Int) else 0)).sum = 1 := by
  intro options
  induction options with
  | nil => intro _ h; cases h
  | cons o rest ih =>
    intro hnd hmem
    rw [List.nodup_cons] at hnd
    by_cases h : item = o
    · have hzero : (rest.map (fun o => if item = o then (1 : Int) else 0)).sum = 0 := by
        apply List.sum_eq_zero
        intro x hx
        obtain ⟨o2, ho2, rfl⟩ := List.mem_map.mp hx
        have : item ≠ o2 := fun e => hnd.1 (h ▸ e ▸ ho2)
        simp [this]
      rw [List.map_cons, List.sum_cons, hzero, if_pos h]
      rfl
    · have hrest : item ∈ rest := by
        rcases List.mem_cons.mp hmem with h2 | h2
        · exact absurd h2 h
        · exact h2
      simp [h, ih hnd.2 hrest]

/-- The counts of the options add up to the number of tuples read when the
options are distinct and every tuple read carries one of them. -/
theorem optionCount_sum (options : List String) (hnd : options.Nodup) :
    ∀ data : List VoteResult, (∀ r ∈ data, r.Option ∈ options) →
      (options.map (fun o => optionCount data o)).sum = data.length := by
  intro data
  induction data with
  | nil =>
    intro _
    simp only [optionCount, List.filter_nil, List.length_nil, Nat.cast_zero]
    apply List.sum_eq_zero
    intro x hx
    obtain ⟨_, _, rfl⟩ := List.mem_map.mp hx
    rfl
  | cons item rest ih =>
    intro hmem
    have hsplit : (options.map (fun o => optionCount (item :: rest) o)).sum =
        (options.map (fun o => if item.Option = o then (1 : Int) else 0)).sum +
          (options.map (fun o => optionCount rest o)).sum := by
      rw [← List.sum_map_add]
      congr 1
      apply List.map_congr_left
      intro o _
      exact optionCount_cons item rest o
    rw [hsplit, indicator_sum_eq_one item.Option options hnd (hmem item (by simp)),
      ih (fun r hr => hmem r (List.mem_cons_of_mem _ hr))]
    simp only [List.length_cons, Nat.cast_add, Nat.cast_one]
    ring

/-- The listing for the tuples `data`: its total is the sum of the counts of
its lines when the options are distinct and every tuple carries one of them. -/
theorem tally_total_eq_sum (question : String) (options : List String)
    (isActive : Bool) (data : List VoteResult)
    (hsize : (data.length : Int) * 100 < 2 ^ 63) (hnd : options.Nodup)
    (hmem : ∀ r ∈ data, r.Option ∈ options) :
    ∃ (total : Int) (lines : List ResultLine),
      tally question options isActive data = Reply.results question isActive total lines ∧
      total = (lines.map (fun l => l.count)).sum := by
  refine ⟨_, _, tally_eq question options isActive data hsize, ?_⟩
  rw [List.map_map, ← optionCount_sum options hnd data hmem]
  have henum : ∀ (l : List String) (n : Nat) (f : String → Int) (g : Nat × String → Int),
      (∀ p, g p = f p.2) → ((l.enumFrom n).map g).sum = (l.map f).sum := by
    intro l
    induction l with
    | nil => intro n f g _; rfl
    | cons o rest ih =>
      intro n f g hg
      simp only [List.enumFrom_cons, List.map_cons, List.sum_cons, hg, ih (n + 1) f g hg]
  exact (henum options 0 _ _ (fun _ => rfl)).symm

/-- The handler `DeleteVote` never writes to `vote_results`. -/
theorem DeleteVote_vote_results (s : Store) (userID voteID : String) :
    (DeleteVote s userID voteID).1.vote_results = s.vote_results := by
  unfold DeleteVote
  split
  · rfl
  · split <;> rfl

theorem enum_map_of_snd {β : Type} (l : List String) (g : Nat × String → β)
    (f : String → β) (h : ∀ p, g p = f p.2) : l.enum.map g = l.map f := by
  have hg : g = f ∘ Prod.snd := funext h
  rw [hg, ← List.map_map, List.enum, List.enumFrom_map_snd]

/-- The counting loop on the tuples `data`, as long as `len(data)` is in the
range of `int`: the total is the number of tuples, and the lines carry the
options in order, each with the number of tuples that have that option. -/
theorem tally_counts (question : String) (options : List String) (isActive : Bool)
    (data : List VoteResult) (hsize : (data.length : Int) < 2 ^ 63) :
    ∃ lines : List ResultLine,
      tally question options isActive data =
        Reply.results question isActive data.length lines ∧
      lines.map (fun l => (l.option, l.count)) =
        options.map (fun o => (o, optionCount data o)) := by
  have hlen : (0 : Int) ≤ data.length := Int.natCast_nonneg _
  obtain ⟨h1, h2⟩ := countVotes_foldl data (initCounts options) 0 (le_refl 0) (by omega)
    (by intro k; rw [mapGet_initCounts]; omega)
  have ht : (countVotes (initCounts options) data).2 = data.length := by
    rw [zero_add] at h1
    exact h1
  have hc : ∀ k, mapGet (countVotes (initCounts options) data).1 k = optionCount data k := by
    intro k
    have := h2 k
    rw [mapGet_initCounts, zero_add] at this
    exact this
  refine ⟨resultLines options (countVotes (initCounts options) data).1
    (countVotes (initCounts options) data).2, ?_, ?_⟩
  · show Reply.results question isActive (countVotes (initCounts options) data).2 _ = _
    rw [ht]
  · unfold resultLines
    rw [List.map_map]
    apply enum_map_of_snd
    intro p
    simp only [Function.comp, hc]

/-- Claim C3: for every database and every existing vote, `GetResults` answers
with a listing whose total equals the sum of the counts of its lines.  Of the
counting code of `GetResults` on any tuples `data` (with `len(data)` in the
range of `int`): the total is the number of tuples, the count of each option
is the number of tuples with that option, and the total is the sum of the
counts when the options are distinct and every tuple carries one of them. -/
theorem results_total_eq_sum (s : Store) (voteID : String) (v : Vote)
    (data : List VoteResult)
    (hfind : findVote s voteID = some v)
    (hsize : (data.length : Int) < 2 ^ 63) :
    (∃ (total : Int) (lines : List ResultLine),
      GetResults s voteID = Reply.results v.Question v.Active total lines ∧
      total = (lines.map (fun l => l.count)).sum) ∧
    (∃ (total : Int) (lines : List ResultLine),
      tally v.Question v.Options v.Active data =
        Reply.results v.Question v.Active total lines ∧
      total = data.length ∧
      lines.map (fun l => (l.option, l.count)) =
        v.Options.map (fun o => (o, optionCount data o)) ∧
      (v.Options.Nodup → (∀ r ∈ data, r.Option ∈ v.Options) →
        total = (lines.map (fun l => l.count)).sum)) := by
  constructor
  · refine ⟨_, _, GetResults_eq s voteID v hfind, ?_⟩
    rw [List.map_map]
    induction v.Options.enum with
    | nil => rfl
    | cons p rest ih => simpa using ih
  · obtain ⟨lines, htally, hlines⟩ :=
      tally_counts v.Question v.Options v.Active data hsize
    refine ⟨_, lines, htally, rfl, hlines, ?_⟩
    intro hnd hmem
    have hcount : lines.map (fun l => l.count) =
        v.Options.map (fun o => optionCount data o) := by
      have := congrArg (List.map Prod.snd) hlines
      simpa [List.map_map, Function.comp] using this
    rw [hcount, optionCount_sum v.Options hnd data hmem]

/-- Claim C4: for every database, every existing vote and every line of the
listing `GetResults` answers with, the percentage is `⌊count * 100 / total⌋`
when the total is positive and 0 when the total is 0.  The same holds of the
listing that the counting and listing code of `GetResults` makes of any tuples
`data`, as long as `100 * len(data)` is in the range of `int`. -/
theorem results_percent (s : Store) (voteID : String) (v : Vote)
    (data : List VoteResult)
    (hfind : findVote s voteID = some v)
    (hsize : (data.length : Int) * 100 < 2 ^ 63) :
    (∃ (total : Int) (lines : List ResultLine),
      GetResults s voteID = Reply.results v.Question v.Active total lines ∧
      ∀ l ∈ lines, l.percent =
        if total > 0 then ⌊((l.count : ℚ) * 100) / (total : ℚ)⌋ else 0) ∧
    (∃ (total : Int) (lines : List ResultLine),
      tally v.Question v.Options v.Active data =
        Reply.results v.Question v.Active total lines ∧
      ∀ l ∈ lines, l.percent =
        if total > 0 then ⌊((l.count : ℚ) * 100) / (total : ℚ)⌋ else 0) := by
  constructor
  · refine ⟨_, _, GetResults_eq s voteID v hfind, ?_⟩
    intro l hl
    obtain ⟨p, _, rfl⟩ := List.mem_map.mp hl
    simp
  · refine ⟨_, _, tally_eq v.Question v.Options v.Active data hsize, ?_⟩
    intro l hl
    obtain ⟨p, _, rfl⟩ := List.mem_map.mp hl
    dsimp only
    split
    · have h := Rat.floor_intCast_div_natCast (optionCount data p.2 * 100) data.length
      rw [← h]
      push_cast
      rfl
    · rfl

/-! ## The claims the handlers do not meet -/

/-- Claim C2, the handler at a database where the claim fails: "Lunch?" has one
ballot for Pizza and one for Sushi, and `GetResults` lists Pizza 0, Sushi 0,
total 0, because its select asks for at most 0 tuples.  The same select with
a limit of 3 reads the ballot of "Dinner?" too and gives Pizza 2, Sushi 1,
total 3. -/
theorem getResults_lunch :
    lunchStore =
      { votes := [lunchVote,
          { ID := "1b", CreatorID := "dave", Question := "Dinner?",
            Options := ["Pizza", "Pasta"], Active := true, CreatedAt := 2 }],
        vote_results :=
          [{ ID := "1a_bob", VoteID := "1a", UserID := "bob", Option := "Pizza", VotedAt := 3 },
           { ID := "1a_carol", VoteID := "1a", UserID := "carol", Option := "Sushi", VotedAt := 4 },
           { ID := "1b_erin", VoteID := "1b", UserID := "erin", Option := "Pizza", VotedAt := 5 }] } ∧
      GetResults lunchStore "1a" =
        Reply.results "Lunch?" true 0
          [{ index := 1, option := "Pizza", count := 0, percent := 0 },
           { index := 2, option := "Sushi", count := 0, percent := 0 }] ∧
      tally "Lunch?" ["Pizza", "Sushi"] true
          (select lunchStore.vote_results resultsPrimary 0 3 .IterGe ["1a"]) =
        Reply.results "Lunch?" true 3
          [{ index := 1, option := "Pizza", count := 2, percent := 66 },
           { index := 2, option := "Sushi", count := 1, percent := 33 }] := by
  decide

/-- Claim C5, the handler at a database where the claim fails: `alice` deletes
her vote "Lunch?", the handler answers "vote deleted" and the vote is gone, and
the two ballots of "Lunch?" are still stored. -/
theorem deleteVote_keeps_ballots :
    (DeleteVote lunchStore "alice" "1a").2 = Reply.deleted ∧
      findVote (DeleteVote lunchStore "alice" "1a").1 "1a" = none ∧
      (ballotsOf (DeleteVote lunchStore "alice" "1a").1 "1a").map (fun r => r.ID) =
        ["1a_bob", "1a_carol"] := by
  decide

/-- Claim C8 fails: `CreateVote` with the empty question and the options Pizza
and Sushi answers "vote created" and stores the vote. -/
theorem empty_question_is_stored :
    CreateVote emptyStore "alice" (.jsonArray ["", "Pizza", "Sushi"]) 26 1 =
        ({ votes := [{ ID := "1a", CreatorID := "alice", Question := "",
                       Options := ["Pizza", "Sushi"], Active := true, CreatedAt := 1 }],
           vote_results := [] },
         Reply.created "" "1a" ["Pizza", "Sushi"]) ∧
      (CreateVote emptyStore "alice" (.jsonArray ["", "Pizza", "Sushi"]) 26 1).2 ≠
        Reply.invalidFormat ∧
      (CreateVote emptyStore "alice" (.jsonArray ["", "Pizza", "Sushi"]) 26 1).1 ≠
        emptyStore := by
  decide

/-- The reply "invalid format" of `CreateVote` is the one of a text that is
neither a JSON string nor a JSON array with at least one element. -/
theorem CreateVote_invalidFormat_iff (s : Store) (creator : String)
    (payload : Payload) (nanos now : Int) :
    (CreateVote s creator payload nanos now).2 = Reply.invalidFormat ↔
      (payload = Payload.invalid ∨ payload = Payload.jsonArray []) := by
  constructor
  · intro h
    match payload with
    | .invalid => exact Or.inl rfl
    | .jsonArray [] => exact Or.inr rfl
    | .jsonString q =>
      exfalso
      simp only [CreateVote] at h
      split at h <;> simp at h
    | .jsonArray (q :: rest) =>
      exfalso
      simp only [CreateVote] at h
      split at h <;> simp at h
  · rintro (h | h) <;> rw [h] <;> rfl

/-- Claim C8 as amended: for every creator and every list of options,
`CreateVote` with the empty question, sent as the JSON string `""` or as the
first element of a JSON array before the options, is not refused: with an id
that is not in use it stores an active vote with the empty question, the
caller as creator and the options (the pair "Да", "Нет" for the string and
for an empty list) and answers "vote created".  For every text the answer is
"invalid format" exactly when the text is neither a JSON string nor a JSON
array with at least one element, and then nothing is stored. -/
theorem createVote_empty_question (s : Store) (creator : String)
    (options : List String) (nanos now : Int)
    (hfresh : ∀ w ∈ s.votes, w.ID ≠ generateID nanos) :
    CreateVote s creator (.jsonArray ("" :: options)) nanos now =
        ({ s with votes := s.votes ++
            [{ ID := generateID nanos, CreatorID := creator, Question := "",
               Options := if options = [] then defaultOptions else options,
               Active := true, CreatedAt := now }] },
         Reply.created "" (generateID nanos)
           (if options = [] then defaultOptions else options)) ∧
      CreateVote s creator (.jsonString "") nanos now =
        ({ s with votes := s.votes ++
            [{ ID := generateID nanos, CreatorID := creator, Question := "",
               Options := defaultOptions, Active := true, CreatedAt := now }] },
         Reply.created "" (generateID nanos) defaultOptions) ∧
      (∀ (payload : Payload) (n t : Int),
        (CreateVote s creator payload n t).2 = Reply.invalidFormat ↔
          (payload = Payload.invalid ∨ payload = Payload.jsonArray [])) ∧
      (∀ (payload : Payload) (n t : Int),
        (CreateVote s creator payload n t).2 = Reply.invalidFormat →
          (CreateVote s creator payload n t).1 = s) := by
  have hany : ∀ v : Vote, v.ID = generateID nanos →
      ¬ (s.votes.any (fun w => votesPrimary w = votesPrimary v) = true) := by
    intro v hv
    simp only [List.any_eq_true, decide_eq_true_eq, votesPrimary, List.cons.injEq, and_true]
    rintro ⟨w, hw, hid⟩
    exact hfresh w hw (hid.trans hv)
  refine ⟨?_, ?_, ?_, ?_⟩
  · cases options with
    | nil => simp [CreateVote, insertVote, hany]
    | cons o rest => simp [CreateVote, insertVote, hany]
  · simp [CreateVote, insertVote, hany]
  · intro payload n t
    exact CreateVote_invalidFormat_iff s creator payload n t
  · intro payload n t h
    rcases (CreateVote_invalidFormat_iff s creator payload n t).mp h with h1 | h1 <;>
      rw [h1] <;> rfl

/-! ## The theorems at concrete databases -/

/-- The database with the vote "Lunch?" satisfies the invariant. -/
theorem pollStore_inv : Inv pollStore :=
  Reachable.inv (Reachable.create emptyStore "alice"
    (.jsonArray ["Lunch?", "Pizza", "Sushi"]) 26 1 Reachable.init)

/-- The theorem of claim C1 at the database with the vote "Lunch?": bob votes 1, then 2. -/
theorem submit_twice_witness :
    Inv pollStore ∧ findVote pollStore "1a" = some lunchVote ∧
      (SubmitVote (SubmitVote pollStore "bob" "1a" (some 1) 3).1 "bob" "1a" (some 2) 4).2 =
        Reply.alreadyVoted ∧
      (ballots (SubmitVote (SubmitVote pollStore "bob" "1a" (some 1) 3).1 "bob" "1a"
        (some 2) 4).1 "1a" "bob").length = 1 :=
  have h := submit_twice pollStore "bob" "1a" lunchVote 1 2 3 4 pollStore_inv
    (by decide) (by decide) (by decide) (by decide)
  ⟨pollStore_inv, by decide, h.1, h.2.2.1⟩

/-- The theorem of claim C6 with bob, who did not create "Lunch?". -/
theorem nonCreator_forbidden_witness :
    findVote lunchStore "1a" = some lunchVote ∧
      EndVote lunchStore "bob" "1a" = (lunchStore, Reply.onlyCreatorEnd) ∧
      DeleteVote lunchStore "bob" "1a" = (lunchStore, Reply.onlyCreatorDelete) :=
  ⟨by decide, nonCreator_forbidden lunchStore "bob" "1a" lunchVote (by decide) (by decide)⟩

/-- The theorem of claim C7 with alice ending "Lunch?" twice. -/
theorem endVote_twice_witness :
    findVote lunchStore "1a" = some lunchVote ∧
      (EndVote lunchStore "alice" "1a").2 = Reply.ended ∧
      (EndVote (EndVote lunchStore "alice" "1a").1 "alice" "1a").2 = Reply.ended ∧
      (EndVote (EndVote lunchStore "alice" "1a").1 "alice" "1a").1 =
        (EndVote lunchStore "alice" "1a").1 :=
  have h := endVote_twice lunchStore "alice" "1a" lunchVote (by decide) (by decide)
  ⟨by decide, h.1, h.2.1, h.2.2.2.2⟩

/-- The theorem of claim C10: alice ends "Lunch?", then frank votes. -/
theorem submit_after_end_closed_witness :
    findVote lunchStore "1a" = some lunchVote ∧
      (EndVote lunchStore "alice" "1a").2 = Reply.ended ∧
      SubmitVote (EndVote lunchStore "alice" "1a").1 "frank" "1a" (some 1) 6 =
        ((EndVote lunchStore "alice" "1a").1, Reply.closed) :=
  ⟨by decide,
    submit_after_end_closed lunchStore "alice" "1a" lunchVote (by decide) (by decide)
      "frank" (some 1) 6⟩

/-- The theorem of claim C9 with option number 3 on the two options of "Lunch?". -/
theorem submit_option_range_witness :
    findVote pollStore "1a" = some lunchVote ∧
      SubmitVote pollStore "bob" "1a" (some 3) 3 = (pollStore, Reply.invalidOption 2) :=
  ⟨by decide,
    (submit_option_range pollStore "bob" "1a" lunchVote 3 3 (by decide) (by decide)).1
      (by decide)⟩

/-- The theorem of claim C3 at the vote "Lunch?" and at its two stored ballots,
one for Pizza and one for Sushi: total 2, counts 1 and 1. -/
theorem results_total_eq_sum_witness :
    findVote lunchStore "1a" = some lunchVote ∧
      ballotsOf lunchStore "1a" =
        [{ ID := "1a_bob", VoteID := "1a", UserID := "bob", Option := "Pizza", VotedAt := 3 },
         { ID := "1a_carol", VoteID := "1a", UserID := "carol", Option := "Sushi",
           VotedAt := 4 }] ∧
      tally "Lunch?" ["Pizza", "Sushi"] true (ballotsOf lunchStore "1a") =
        Reply.results "Lunch?" true 2
          [{ index := 1, option := "Pizza", count := 1, percent := 50 },
           { index := 2, option := "Sushi", count := 1, percent := 50 }] ∧
      (∃ (total : Int) (lines : List ResultLine),
        GetResults lunchStore "1a" = Reply.results "Lunch?" true total lines ∧
        total = (lines.map (fun l => l.count)).sum) ∧
      (∃ (total : Int) (lines : List ResultLine),
        tally "Lunch?" ["Pizza", "Sushi"] true (ballotsOf lunchStore "1a") =
          Reply.results "Lunch?" true total lines ∧
        total = (ballotsOf lunchStore "1a").length ∧
        lines.map (fun l => (l.option, l.count)) =
          ["Pizza", "Sushi"].map
            (fun o => (o, optionCount (ballotsOf lunchStore "1a") o)) ∧
        (["Pizza", "Sushi"].Nodup →
          (∀ r ∈ ballotsOf lunchStore "1a", r.Option ∈ ["Pizza", "Sushi"]) →
          total = (lines.map (fun l => l.count)).sum)) :=
  have h := results_total_eq_sum lunchStore "1a" lunchVote (ballotsOf lunchStore "1a")
    (by decide) (by decide)
  ⟨by decide, by decide, by decide, h.1, h.2⟩

/-- The theorem of claim C4 at the vote "Lunch?", and at three tuples with two
ballots for Pizza and one for Sushi: 66 and 33 per cent. -/
theorem results_percent_witness :
    findVote lunchStore "1a" = some lunchVote ∧
      (∃ (total : Int) (lines : List ResultLine),
        GetResults lunchStore "1a" = Reply.results "Lunch?" true total lines ∧
        ∀ l ∈ lines, l.percent =
          if total > 0 then ⌊((l.count : ℚ) * 100) / (total : ℚ)⌋ else 0) ∧
      (∃ (total : Int) (lines : List ResultLine),
        tally "Lunch?" ["Pizza", "Sushi"] true lunchStore.vote_results =
          Reply.results "Lunch?" true total lines ∧
        ∀ l ∈ lines, l.percent =
          if total > 0 then ⌊((l.count : ℚ) * 100) / (total : ℚ)⌋ else 0) ∧
      tally "Lunch?" ["Pizza", "Sushi"] true lunchStore.vote_results =
        Reply.results "Lunch?" true 3
          [{ index := 1, option := "Pizza", count := 2, percent := 66 },
           { index := 2, option := "Sushi", count := 1, percent := 33 }] :=
  have h := results_percent lunchStore "1a" lunchVote lunchStore.vote_results
    (by decide) (by decide)
  ⟨by decide, h.1, h.2, by decide⟩

/-- The amended claim C8 with bob and the empty question, once with the option
Tea and once as a JSON string. -/
theorem createVote_empty_question_witness :
    (∀ w ∈ pollStore.votes, w.ID ≠ generateID 27) ∧
      CreateVote pollStore "bob" (.jsonArray ["", "Tea"]) 27 2 =
        ({ votes := [lunchVote,
             { ID := "1b", CreatorID := "bob", Question := "", Options := ["Tea"],
               Active := true, CreatedAt := 2 }],
           vote_results := [] },
         Reply.created "" "1b" ["Tea"]) ∧
      CreateVote pollStore "bob" (.jsonString "") 27 2 =
        ({ votes := [lunchVote,
             { ID := "1b", CreatorID := "bob", Question := "", Options := ["Да", "Нет"],
               Active := true, CreatedAt := 2 }],
           vote_results := [] },
         Reply.created "" "1b" ["Да", "Нет"]) :=
  have h := createVote_empty_question pollStore "bob" ["Tea"] 27 2 (by decide)
  ⟨by decide, h.1.trans (by decide), h.2.1.trans (by decide)⟩

end VoteBot
